import Mathlib

/-!
Shallow embedding of the update-queue sequencer in
`client/my-sites/stats/activity-log/activity-log-tasklist` (file `src/unnamed/part_000`),
the `ActivityLogTasklist` React component together with its helper functions
(`isItemUpdating`, `isItemEnqueued`, `getNormalizedStatus`, `getStatusForCore`).

Modelling conventions:
* A plugin/theme/core item is a record of its relevant fields.  The JS value
  `updateStatus`, which is either `false` or an object `\x7bstatus: s\x7d`, is embedded
  as `Option String` (`none` for `false`, `some s` for `\x7bstatus: s\x7d`).
* The JS field `from` is a Lean keyword, so the guillemet-quoted name `«from»` is used.
* Lodash `union` concatenates its arguments and keeps the first occurrence of each
  element; it is embedded as `unionL` / `unionL3` / `unionL4` via `dedupFirst`,
  with structural (value) equality standing for the JS SameValueZero identity.
* React `setState` calls become functions `SState → SState`; dispatched Redux
  actions, notices and tracking calls become values of the inductive type `Effect`.
-/

/-- An updatable item (plugin, theme, or the core pseudo-item), as consumed by
`ActivityLogTasklist`.  `updateStatus = none` embeds the JS value `false`;
`updateStatus = some s` embeds `\x7bstatus: s\x7d`. -/
structure Item where
  slug : String
  type : String
  name : String
  updateStatus : Option String
  «from» : String
deriving DecidableEq, Repr

/-- The connected props the sequencer logic reads: the three candidate lists
(core, plugins, themes), each already carrying its normalized `updateStatus`. -/
structure Props where
  coreWithUpdate : List Item
  pluginWithUpdate : List Item
  themeWithUpdate : List Item
deriving DecidableEq, Repr

/-- Local component state: `state = \x7b dismissed: [], queued: [] \x7d`. -/
structure SState where
  dismissed : List String
  queued : List Item
deriving DecidableEq, Repr

/-- The initial component state: both lists empty. -/
def emptyState : SState := { dismissed := [], queued := [] }

/-- Observable side effects dispatched by the sequencer: notices (keyed by their
notice id), tracking events, the external update-start action, and the internal
`dismiss`/`dequeue` calls made during reconciliation. -/
inductive Effect where
  | showErrorNotice (noticeId : String) (retryItem : Item) (retryFrom : String)
  | showSuccessNotice (noticeId : String)
  | showInfoNotice (noticeId : String)
  | dismissCall (item : Item)
  | dequeueCall
  | trackDismiss (item : Item)
  | trackDismissAll
  | trackUpdate (item : Item)
  | updateSingle (item : Item)
  | trackUpdateAll
deriving DecidableEq, Repr

/-- Helper for `dedupFirst`: drop every element already in `seen`, keeping the
first occurrence of each remaining element (the lodash union/uniq scan). -/
def dedupAux {α : Type} [DecidableEq α] (seen : List α) : List α → List α
  | [] => []
  | x :: xs => if x ∈ seen then dedupAux seen xs else x :: dedupAux (seen ++ [x]) xs

/-- Keep the first occurrence of each element of a list (lodash `uniq`). -/
def dedupFirst {α : Type} [DecidableEq α] (l : List α) : List α := dedupAux [] l

/-- Lodash `union(a, b)`: concatenation with first-occurrence deduplication. -/
def unionL {α : Type} [DecidableEq α] (a b : List α) : List α := dedupFirst (a ++ b)

/-- Lodash `union(a, b, c)`. -/
def unionL3 {α : Type} [DecidableEq α] (a b c : List α) : List α := dedupFirst (a ++ b ++ c)

/-- Lodash `union(a, b, c, d)`. -/
def unionL4 {α : Type} [DecidableEq α] (a b c d : List α) : List α :=
  dedupFirst (a ++ b ++ c ++ d)

/-- Helper `isItemUpdating`: true when some listed item has an `updateStatus.status` field equal to `inProgress`. -/
def isItemUpdating (s : List Item) : Bool :=
  s.any (fun p => p.updateStatus == some "inProgress")

/-- Helper `isItemEnqueued`: true when some queued item has the given slug
(lodash `find(q, \x7bslug: g\x7d)`). -/
def isItemEnqueued (g : String) (q : List Item) : Bool :=
  q.any (fun p => p.slug == g)

/-- The union `union(coreWithUpdate, pluginWithUpdate, themeWithUpdate)`, the full candidate
set inspected by `continueQueue`, `componentDidUpdate` and `render`. -/
def allUpdatable (props : Props) : List Item :=
  unionL3 props.coreWithUpdate props.pluginWithUpdate props.themeWithUpdate

/-- State transition of `enqueue(item, from)`: set `item.from = from`, then
`queued = union(queued, [item])`. -/
def enqueueSt (s : SState) (item : Item) (f : String) : SState :=
  { s with queued := unionL s.queued [{ item with «from» := f }] }

/-- State transition of `dequeue()`: `queued = queued.slice(1)`. -/
def dequeueSt (s : SState) : SState :=
  { s with queued := s.queued.drop 1 }

/-- Embedding of `continueQueue()`: when the queue is non-empty and no candidate item is
updating, dispatch `updateItem` on `queued[0]`.  The returned value is the item
passed to `updateItem` (`none` when nothing is dispatched); `continueQueue`
performs no `setState`, so it has no state transition of its own. -/
def continueQueue (props : Props) (s : SState) : Option Item :=
  if 0 < s.queued.length && !(isItemUpdating (allUpdatable props)) then
    s.queued[0]?
  else
    none

/-- The full `enqueue(item, from)` operation: the `setState` above followed by the
`continueQueue` callback, whose dispatch decision is returned alongside the new
state. -/
def enqueueOp (props : Props) (s : SState) (item : Item) (f : String) :
    SState × Option Item :=
  let s2 := enqueueSt s item f
  (s2, continueQueue props s2)

/-- The full `dequeue()` operation: drop the head, then run the `continueQueue`
callback. -/
def dequeueOp (props : Props) (s : SState) : SState × Option Item :=
  let s2 := dequeueSt s
  (s2, continueQueue props s2)

/-- State transition of `updateAll()`:
`queued = union(queued, coreWithUpdate, pluginWithUpdate, themeWithUpdate)`. -/
def updateAllSt (props : Props) (s : SState) : SState :=
  { s with
    queued :=
      unionL4 s.queued props.coreWithUpdate props.pluginWithUpdate props.themeWithUpdate }

/-- The slugs `dismiss` adds: `[item.slug]` when called with an item whose slug is
a string, otherwise the union of all candidate slugs (the "dismiss all" branch). -/
def dismissTargets (props : Props) (arg : Option Item) : List String :=
  match arg with
  | some item => [item.slug]
  | none =>
      unionL3 (props.coreWithUpdate.map (fun p => p.slug))
        (props.pluginWithUpdate.map (fun p => p.slug))
        (props.themeWithUpdate.map (fun p => p.slug))

/-- State transition of `dismiss(item)`: `dismissed = union(dismissed, items)`.
The argument `some item` embeds a call whose `item.slug` is a string;
`none` embeds the "dismiss all" call (no string slug on the argument).
`queued` is untouched. -/
def dismissSt (props : Props) (s : SState) (arg : Option Item) : SState :=
  { s with dismissed := unionL s.dismissed (dismissTargets props arg) }

/-- Tracking effects of `dismiss(item)`: a per-item event on the single-slug
branch, a dismiss-all event otherwise. -/
def dismissFx (arg : Option Item) : List Effect :=
  match arg with
  | some item => [Effect.trackDismiss item]
  | none => [Effect.trackDismissAll]

/-- Effects of `updateItem(item)`: tracking event, external update-start action,
and an informational notice keyed `alitemupdate-` ++ slug.  `updateItem` performs
no `setState`. -/
def updateItemFx (item : Item) : List Effect :=
  [Effect.trackUpdate item, Effect.updateSingle item,
    Effect.showInfoNotice ("alitemupdate-" ++ item.slug)]

/-- Embedding of `prevProps[type ++ "WithUpdate"]`: dynamic lookup of a candidate list by item
type; an unknown type reads an absent property (`undefined`), on which lodash
`find` finds nothing, embedded as the empty list. -/
def propsByType (p : Props) (t : String) : List Item :=
  if t == "core" then p.coreWithUpdate
  else if t == "plugin" then p.pluginWithUpdate
  else if t == "theme" then p.themeWithUpdate
  else []

/-- Embedding of `get(find(prevProps[type + WithUpdate], \x7bslug\x7d), [updateStatus], false)`:
the previously observed update status of `item`, `none` when the item was absent
from the previous props or its status was `false`.  Because every non-`false`
status object is `\x7bstatus: s\x7d`, this same value also embeds
`get(prevItemWithUpdate, [updateStatus, status], false)`. -/
def prevStatus (prevProps : Props) (item : Item) : Option String :=
  (List.find? (fun p => p.slug == item.slug) (propsByType prevProps item.type)).bind
    (fun p => p.updateStatus)

/-- The body of the `each` loop of `componentDidUpdate`, for one candidate item:
skip items whose previous status was `false`/absent, items whose status field is
unchanged, and items currently updating; otherwise switch on the new status,
showing a notice and advancing the queue on `error` and `completed`. -/
def reconcileItem (prevProps : Props) (item : Item) : List Effect :=
  if prevStatus prevProps item = none then []
  else if prevStatus prevProps item = item.updateStatus ∨
      item.updateStatus = some "inProgress" then []
  else
    match item.updateStatus with
    | some "error" =>
        [Effect.showErrorNotice ("alitemupdate-" ++ item.slug) item "_from_error",
          Effect.dequeueCall]
    | some "completed" =>
        [Effect.showSuccessNotice ("alitemupdate-" ++ item.slug),
          Effect.dismissCall item, Effect.dequeueCall]
    | _ => []

/-- Embedding of `componentDidUpdate(prevProps)`: return early when the candidate set is empty,
otherwise run the reconciliation body over every candidate item. -/
def componentDidUpdate (prevProps props : Props) : List Effect :=
  let itemsWithUpdate := allUpdatable props
  if itemsWithUpdate.isEmpty then []
  else ((itemsWithUpdate.map (reconcileItem prevProps)).flatten)

/-- Apply one reconciliation effect to the component state: `dismiss(item)` and
`dequeue()` mutate the state; notices and tracking events do not. -/
def applyEffect (props : Props) (s : SState) (e : Effect) : SState :=
  match e with
  | Effect.dismissCall item => dismissSt props s (some item)
  | Effect.dequeueCall => dequeueSt s
  | _ => s

/-- The state transition of one reconciliation pass: fold the effect list of
`componentDidUpdate` over the state. -/
def reconcileStep (prevProps props : Props) (s : SState) : SState :=
  (componentDidUpdate prevProps props).foldl (applyEffect props) s

/-- The list rendered by `render()`: the candidate set with dismissed slugs
filtered out (`!includes(dismissed, item.slug)`). -/
def renderedItems (props : Props) (s : SState) : List Item :=
  (allUpdatable props).filter (fun item => !(s.dismissed.contains item.slug))

/-- Outcome of the `page.exit` navigation-guard handler: either `next()` is
called (navigation proceeds) or a deferred `page.replace` restores the previous
route. -/
inductive NavOutcome where
  | proceed
  | cancelRestore (path : String)
deriving DecidableEq, Repr

/-- The `page.exit` handler registered in `componentDidMount`: let navigation
proceed when the queue is empty or the user confirms the prompt, otherwise
re-`replace` the activity route.  `confirmResponse` is the answer the user would
give to `window.confirm`; the handler performs no `setState`, so the state is
returned unchanged. -/
def exitHandler (siteSlug : String) (s : SState) (confirmResponse : Bool) :
    NavOutcome × SState :=
  if s.queued.length == 0 || confirmResponse then
    (NavOutcome.proceed, s)
  else
    (NavOutcome.cancelRestore ("/stats/activity/" ++ siteSlug), s)

/-- Embedding of `getNormalizedStatus(state, isUpdateComplete)`: map the http-layer state to
the status vocabulary of the sequencer; `success` is `completed` only when the update
is observed complete, otherwise `error`. -/
def getNormalizedStatus (state : String) (isUpdateComplete : Bool) : Option String :=
  if state == "pending" then some "inProgress"
  else if state == "failure" then some "error"
  else if state == "success" then
    if isUpdateComplete then some "completed" else some "error"
  else none

/-- Embedding of `getStatusForCore(siteId)`: read the http state stored under
`core-update-$\x7bsiteId\x7d` and normalize it with `isUpdateComplete` hardwired to
`false`.  The http-data store is abstracted as a function from keys to states. -/
def getStatusForCore (getHttpState : String → String) (siteId : Nat) : Option String :=
  getNormalizedStatus (getHttpState ("core-update-" ++ toString siteId)) false

/-- A user-driven queue operation: an `enqueue(item, from)` call or a `dequeue()`
call. -/
inductive QOp where
  | enq (item : Item) (f : String)
  | deq
deriving DecidableEq, Repr

/-- Number of `enqueue` calls in an operation sequence. -/
def countEnq : List QOp → Nat
  | [] => 0
  | QOp.enq _ _ :: ops => countEnq ops + 1
  | QOp.deq :: ops => countEnq ops

/-- Number of `dequeue` calls in an operation sequence. -/
def countDeq : List QOp → Nat
  | [] => 0
  | QOp.enq _ _ :: ops => countDeq ops
  | QOp.deq :: ops => countDeq ops + 1

/-- Apply the state transition of one queue operation. -/
def applyQOp (s : SState) : QOp → SState
  | QOp.enq item f => enqueueSt s item f
  | QOp.deq => dequeueSt s

/-- Run a sequence of queue operations from a state. -/
def runOps (s : SState) (ops : List QOp) : SState := ops.foldl applyQOp s

/-- The FIFO queue behaviour the specification claims: `enqueue` appends the
provenance-tagged item at the tail, `dequeue` removes the head. -/
def specStep (q : List Item) : QOp → List Item
  | QOp.enq item f => q ++ [{ item with «from» := f }]
  | QOp.deq => q.drop 1

/-- Run the claimed FIFO behaviour over a sequence of queue operations. -/
def specRun (q : List Item) (ops : List QOp) : List Item := ops.foldl specStep q

/-- An operation sequence is admissible from queue `q` when every `enqueue` call
passes an item (after provenance tagging) not already queued at that point, and
every `dequeue` call finds a non-empty queue. -/
def admissible : List Item → List QOp → Bool
  | _, [] => true
  | q, QOp.enq item f :: ops =>
      !(q.contains { item with «from» := f }) &&
        admissible (q ++ [{ item with «from» := f }]) ops
  | q, QOp.deq :: ops => !(q.isEmpty) && admissible (q.drop 1) ops

/-- A sample plugin item used to instantiate theorems on concrete inputs. -/
def sampleItem : Item :=
  { slug := "hello-dolly", type := "plugin", name := "Hello Dolly",
    updateStatus := none, «from» := "" }

/-- A second sample item sharing the slug of `sampleItem` but distinct from it. -/
def sampleItemB : Item :=
  { slug := "hello-dolly", type := "plugin", name := "Hello Dolly (copy)",
    updateStatus := none, «from» := "" }

/-- A sample theme item. -/
def sampleTheme : Item :=
  { slug := "dara", type := "theme", name := "Dara",
    updateStatus := some "inProgress", «from» := "" }

/-- The sample item as previously observed mid-update. -/
def sampleInProgress : Item :=
  { slug := "hello-dolly", type := "plugin", name := "Hello Dolly",
    updateStatus := some "inProgress", «from» := "" }

/-- The sample item as currently observed after a failed update. -/
def sampleErrored : Item :=
  { slug := "hello-dolly", type := "plugin", name := "Hello Dolly",
    updateStatus := some "error", «from» := "" }

/-- The sample item as currently observed after a successful update. -/
def sampleCompleted : Item :=
  { slug := "hello-dolly", type := "plugin", name := "Hello Dolly",
    updateStatus := some "completed", «from» := "" }

/-- Every element produced by `dedupAux seen l` is an element of `l` outside
`seen`, and conversely (first-occurrence deduplication loses no new element). -/
theorem mem_dedupAux {α : Type} [DecidableEq α] (a : α) (l : List α) :
    ∀ seen : List α, a ∈ dedupAux seen l ↔ a ∈ l ∧ a ∉ seen := by
  induction l with
  | nil => intro seen; simp [dedupAux]
  | cons x xs ih =>
    intro seen
    by_cases hx : x ∈ seen
    · rw [dedupAux, if_pos hx, ih seen]
      constructor
      · rintro ⟨h1, h2⟩
        exact ⟨List.mem_cons_of_mem _ h1, h2⟩
      · rintro ⟨h1, h2⟩
        rcases List.mem_cons.mp h1 with h | h
        · exact absurd (h ▸ hx) h2
        · exact ⟨h, h2⟩
    · rw [dedupAux, if_neg hx]
      simp only [List.mem_cons, ih, List.mem_append, List.mem_singleton]
      by_cases hax : a = x
      · subst hax; tauto
      · tauto

/-- Deduplication of a list that is already duplicate-free and disjoint from
`seen` is the identity. -/
theorem dedupAux_eq_self {α : Type} [DecidableEq α] (l : List α) :
    ∀ seen : List α, l.Nodup → (∀ x ∈ l, x ∉ seen) → dedupAux seen l = l := by
  induction l with
  | nil => intro seen _ _; rfl
  | cons x xs ih =>
    intro seen hnd hdis
    have hx : x ∉ seen := hdis x (List.mem_cons_self x xs)
    rw [dedupAux, if_neg hx]
    congr 1
    refine ih (seen ++ [x]) (List.Nodup.of_cons hnd) ?_
    intro y hy
    simp only [List.mem_append, List.mem_singleton]
    rintro (h | h)
    · exact hdis y (List.mem_cons_of_mem _ hy) h
    · exact (List.nodup_cons.mp hnd).1 (h ▸ hy)

/-- Deduplicating `q ++ [i]` when `q` is duplicate-free, disjoint from `seen`,
and `i` already occurs (in `seen` or in `q`) collapses to `q`. -/
theorem dedupAux_append_mem {α : Type} [DecidableEq α] (i : α) (q : List α) :
    ∀ seen : List α, q.Nodup → (∀ x ∈ q, x ∉ seen) → (i ∈ seen ∨ i ∈ q) →
      dedupAux seen (q ++ [i]) = q := by
  induction q with
  | nil =>
    intro seen _ _ hi
    rcases hi with hi | hi
    · simp [dedupAux, hi]
    · exact absurd hi (List.not_mem_nil i)
  | cons x xs ih =>
    intro seen hnd hdis hi
    have hx : x ∉ seen := hdis x (List.mem_cons_self x xs)
    rw [List.cons_append, dedupAux, if_neg hx]
    congr 1
    refine ih (seen ++ [x]) (List.Nodup.of_cons hnd) ?_ ?_
    · intro y hy
      simp only [List.mem_append, List.mem_singleton]
      rintro (h | h)
      · exact hdis y (List.mem_cons_of_mem _ hy) h
      · exact (List.nodup_cons.mp hnd).1 (h ▸ hy)
    · rcases hi with h | h
      · left; simp [h]
      · rcases List.mem_cons.mp h with h | h
        · left; simp [h]
        · right; exact h

/-- Membership in `dedupFirst` is membership in the original list. -/
theorem mem_dedupFirst {α : Type} [DecidableEq α] (a : α) (l : List α) :
    a ∈ dedupFirst l ↔ a ∈ l := by
  rw [dedupFirst, mem_dedupAux]
  simp

/-- Membership in a lodash union of two lists. -/
theorem mem_unionL {α : Type} [DecidableEq α] (a : α) (l1 l2 : List α) :
    a ∈ unionL l1 l2 ↔ a ∈ l1 ∨ a ∈ l2 := by
  rw [unionL, mem_dedupFirst, List.mem_append]

/-- Membership in a lodash union of three lists. -/
theorem mem_unionL3 {α : Type} [DecidableEq α] (a : α) (l1 l2 l3 : List α) :
    a ∈ unionL3 l1 l2 l3 ↔ a ∈ l1 ∨ a ∈ l2 ∨ a ∈ l3 := by
  rw [unionL3, mem_dedupFirst]
  simp [or_assoc]

/-- Unioning `union(q, [i])` with `q` duplicate-free and `i` fresh appends `i` at the
tail. -/
theorem unionL_singleton_not_mem {α : Type} [DecidableEq α] (q : List α) (i : α)
    (hnd : q.Nodup) (hi : i ∉ q) : unionL q [i] = q ++ [i] := by
  rw [unionL, dedupFirst]
  refine dedupAux_eq_self _ [] ?_ ?_
  · simp [List.nodup_append, hnd, hi]
  · simp

/-- Unioning `union(q, [i])` with `q` duplicate-free and `i` already queued leaves `q`
unchanged. -/
theorem unionL_singleton_mem {α : Type} [DecidableEq α] (q : List α) (i : α)
    (hnd : q.Nodup) (hi : i ∈ q) : unionL q [i] = q := by
  rw [unionL, dedupFirst]
  exact dedupAux_append_mem i q [] hnd (by simp) (Or.inr hi)

/-- On an admissible operation sequence starting from a duplicate-free queue, the
implemented transitions (`union` on enqueue, `slice(1)` on dequeue) coincide with
the claimed FIFO behaviour. -/
theorem runOps_queued_eq (ops : List QOp) :
    ∀ (d : List String) (q : List Item), q.Nodup → admissible q ops = true →
      (runOps ⟨d, q⟩ ops).queued = specRun q ops := by
  induction ops with
  | nil => intro d q _ _; rfl
  | cons op ops ih =>
    intro d q hnd hadm
    cases op with
    | enq item f =>
      rw [admissible, Bool.and_eq_true] at hadm
      have hni : { item with «from» := f } ∉ q := by
        have h1 : q.contains { item with «from» := f } = false := by
          simpa using hadm.1
        simpa using h1
      have hstep : runOps ⟨d, q⟩ (QOp.enq item f :: ops) =
          runOps ⟨d, q ++ [{ item with «from» := f }]⟩ ops := by
        show runOps (applyQOp ⟨d, q⟩ (QOp.enq item f)) ops = _
        rw [applyQOp, enqueueSt]
        simp only [unionL_singleton_not_mem q _ hnd hni]
      rw [hstep]
      have hnd2 : (q ++ [{ item with «from» := f }]).Nodup := by
        simp [List.nodup_append, hnd, hni]
      exact ih d _ hnd2 hadm.2
    | deq =>
      rw [admissible, Bool.and_eq_true] at hadm
      have hstep : runOps ⟨d, q⟩ (QOp.deq :: ops) = runOps ⟨d, q.drop 1⟩ ops := rfl
      rw [hstep]
      have hnd2 : (q.drop 1).Nodup := (List.drop_sublist 1 q).nodup hnd
      exact ih d _ hnd2 hadm.2

/-- On an admissible operation sequence, the length of the claimed FIFO queue is
the starting length plus the number of enqueues minus the number of dequeues. -/
theorem specRun_length (ops : List QOp) :
    ∀ q : List Item, admissible q ops = true →
      ((specRun q ops).length : Int) =
        (q.length : Int) + countEnq ops - countDeq ops := by
  induction ops with
  | nil => intro q _; simp [specRun, countEnq, countDeq]
  | cons op ops ih =>
    intro q hadm
    cases op with
    | enq item f =>
      rw [admissible, Bool.and_eq_true] at hadm
      have h := ih (q ++ [{ item with «from» := f }]) hadm.2
      have hstep : specRun q (QOp.enq item f :: ops) =
          specRun (q ++ [{ item with «from» := f }]) ops := rfl
      rw [hstep, h, countEnq, countDeq]
      simp
      omega
    | deq =>
      rw [admissible, Bool.and_eq_true] at hadm
      have hq : q ≠ [] := by
        intro h
        rw [h] at hadm
        simp [List.isEmpty] at hadm
      have hlen : 0 < q.length := List.length_pos.mpr hq
      have h := ih (q.drop 1) hadm.2
      have hstep : specRun q (QOp.deq :: ops) = specRun (q.drop 1) ops := rfl
      rw [hstep, h, countEnq, countDeq]
      rw [List.length_drop]
      omega

/-- C1: for every props and state, `continueQueue` dispatches `updateItem`
exactly when `queued` is non-empty and no item of the full candidate set
`union(coreWithUpdate, pluginWithUpdate, themeWithUpdate)` has status
`inProgress`; the dispatched item is always `queued[0]`, and while any candidate
is in progress nothing is dispatched. -/
theorem isItemUpdating_eq_false_iff (l : List Item) :
    isItemUpdating l = false ↔ ∀ it ∈ l, it.updateStatus ≠ some "inProgress" := by
  simp [isItemUpdating, List.any_eq_false]

theorem isItemUpdating_eq_true_iff (l : List Item) :
    isItemUpdating l = true ↔ ∃ it ∈ l, it.updateStatus = some "inProgress" := by
  simp [isItemUpdating, List.any_eq_true]

/-- C1: for every props and state, `continueQueue` dispatches `updateItem`
exactly when `queued` is non-empty and no item of the full candidate set
`union(coreWithUpdate, pluginWithUpdate, themeWithUpdate)` has status
`inProgress`; the dispatched item is always `queued[0]`, and while any candidate
is in progress nothing is dispatched. -/
theorem continueQueue_mutual_exclusion (props : Props) (s : SState) :
    ((continueQueue props s).isSome ↔
      s.queued ≠ [] ∧ ∀ it ∈ allUpdatable props, it.updateStatus ≠ some "inProgress") ∧
    (∀ it : Item, continueQueue props s = some it → s.queued[0]? = some it) ∧
    (isItemUpdating (allUpdatable props) = true → continueQueue props s = none) := by
  by_cases hu : isItemUpdating (allUpdatable props) = true
  · obtain ⟨w, hw, hws⟩ := (isItemUpdating_eq_true_iff _).mp hu
    have hnone : continueQueue props s = none := by
      simp only [continueQueue, hu]
      simp
    refine ⟨?_, ?_, fun _ => hnone⟩
    · rw [hnone]
      constructor
      · intro h; simp at h
      · rintro ⟨-, hallc⟩; exact absurd hws (hallc w hw)
    · intro it hit
      rw [hnone] at hit
      cases hit
  · have hu2 : isItemUpdating (allUpdatable props) = false := by
      cases h : isItemUpdating (allUpdatable props)
      · rfl
      · exact absurd h hu
    have hall : ∀ it ∈ allUpdatable props, it.updateStatus ≠ some "inProgress" :=
      (isItemUpdating_eq_false_iff _).mp hu2
    cases hq : s.queued with
    | nil =>
      have hnone : continueQueue props s = none := by
        simp only [continueQueue, hq]
        simp
      refine ⟨?_, ?_, fun h => hnone⟩
      · rw [hnone]
        constructor
        · intro h; simp at h
        · rintro ⟨hne, -⟩; exact absurd rfl hne
      · intro it hit
        rw [hnone] at hit
        cases hit
    | cons x xs =>
      have hsome : continueQueue props s = some x := by
        simp only [continueQueue, hq, hu2]
        simp
      refine ⟨?_, ?_, ?_⟩
      · rw [hsome]
        constructor
        · intro _; exact ⟨by simp, hall⟩
        · intro _; simp
      · intro it hit
        rw [hsome] at hit
        simpa using hit
      · intro hcontra
        rw [hcontra] at hu2
        cases hu2

/-- C1 witness: with a queued plugin and an in-progress theme candidate nothing
is dispatched, and with no in-progress candidate the queue head is dispatched. -/
theorem continueQueue_mutual_exclusion_witness :
    continueQueue ⟨[], [], [sampleTheme]⟩ { dismissed := [], queued := [sampleItem] } = none ∧
    continueQueue ⟨[], [], []⟩ { dismissed := [], queued := [sampleItem] } = some sampleItem := by
  constructor
  · exact (continueQueue_mutual_exclusion ⟨[], [], [sampleTheme]⟩
      { dismissed := [], queued := [sampleItem] }).2.2 (by decide)
  · have h1 := (continueQueue_mutual_exclusion ⟨[], [], []⟩
      { dismissed := [], queued := [sampleItem] }).1.mpr ⟨by decide, by decide⟩
    obtain ⟨it, hit⟩ := Option.isSome_iff_exists.mp h1
    have h2 := (continueQueue_mutual_exclusion ⟨[], [], []⟩
      { dismissed := [], queued := [sampleItem] }).2.1 it hit
    have h3 : it = sampleItem := by simpa using h2.symm
    rw [hit, h3]

/-- C3 counterexample: enqueueing the same item twice (with no dequeues) leaves a
queue of length 1, not 2, because `enqueue` unions instead of appending. -/
theorem queue_fifo_cex :
    ¬ (((runOps emptyState [QOp.enq sampleItem "", QOp.enq sampleItem ""]).queued.length : Int) =
        (countEnq [QOp.enq sampleItem "", QOp.enq sampleItem ""] : Int) -
          countDeq [QOp.enq sampleItem "", QOp.enq sampleItem ""]) := by
  decide

/-- C3 (amended): for every admissible sequence of enqueue and dequeue calls from
the empty state — each enqueue passes an item not already queued and each dequeue
finds a non-empty queue — the queue evolves exactly as the FIFO specification
(enqueue appends at the tail, dequeue removes the head), and its final length is
the number of enqueues minus the number of dequeues. -/
theorem queue_fifo_of_admissible (ops : List QOp) (h : admissible [] ops = true) :
    (runOps emptyState ops).queued = specRun [] ops ∧
    ((runOps emptyState ops).queued.length : Int) =
      (countEnq ops : Int) - countDeq ops := by
  have h1 : (runOps emptyState ops).queued = specRun [] ops := by
    have := runOps_queued_eq ops [] [] List.nodup_nil h
    simpa [emptyState] using this
  refine ⟨h1, ?_⟩
  rw [h1]
  have h2 := specRun_length ops [] h
  rw [h2]
  simp

/-- C3 witness: a concrete admissible sequence (two distinct enqueues, one
dequeue) follows the FIFO specification and has length 2 − 1 = 1. -/
theorem queue_fifo_of_admissible_witness :
    (runOps emptyState [QOp.enq sampleItem "", QOp.enq sampleTheme "", QOp.deq]).queued =
      specRun [] [QOp.enq sampleItem "", QOp.enq sampleTheme "", QOp.deq] ∧
    ((runOps emptyState [QOp.enq sampleItem "", QOp.enq sampleTheme "", QOp.deq]).queued.length : Int) =
      (countEnq [QOp.enq sampleItem "", QOp.enq sampleTheme "", QOp.deq] : Int) -
        countDeq [QOp.enq sampleItem "", QOp.enq sampleTheme "", QOp.deq] :=
  queue_fifo_of_admissible [QOp.enq sampleItem "", QOp.enq sampleTheme "", QOp.deq] (by decide)

/-- C4: `enqueue(item, from)` tags the item with its provenance and unions it
into `queued` (leaving `dismissed` alone), then triggers `continueQueue` on the
new state; on a duplicate-free queue, enqueueing an item value already queued
leaves the queue unchanged, while enqueueing a distinct item value — even one
sharing a slug with a queued item — appends it at the tail as a second entry. -/
theorem enqueue_semantics (props : Props) (s : SState) (item : Item) (f : String) :
    ((enqueueOp props s item f).1).queued = unionL s.queued [{ item with «from» := f }] ∧
    ((enqueueOp props s item f).1).dismissed = s.dismissed ∧
    (enqueueOp props s item f).2 = continueQueue props (enqueueOp props s item f).1 ∧
    (s.queued.Nodup → { item with «from» := f } ∈ s.queued →
      ((enqueueOp props s item f).1).queued = s.queued) ∧
    (s.queued.Nodup → { item with «from» := f } ∉ s.queued →
      ((enqueueOp props s item f).1).queued = s.queued ++ [{ item with «from» := f }]) := by
  refine ⟨rfl, rfl, rfl, ?_, ?_⟩
  · intro hnd hm
    show (enqueueSt s item f).queued = s.queued
    rw [enqueueSt]
    exact unionL_singleton_mem s.queued _ hnd hm
  · intro hnd hm
    show (enqueueSt s item f).queued = s.queued ++ [{ item with «from» := f }]
    rw [enqueueSt]
    exact unionL_singleton_not_mem s.queued _ hnd hm

/-- C4 witness: re-enqueueing the queued item value leaves the queue unchanged,
while enqueueing a distinct item with the same slug appends a second entry. -/
theorem enqueue_semantics_witness :
    ((enqueueOp ⟨[], [], []⟩ { dismissed := [], queued := [sampleItem] } sampleItem "").1).queued =
      [sampleItem] ∧
    ((enqueueOp ⟨[], [], []⟩ { dismissed := [], queued := [sampleItem] } sampleItemB "").1).queued =
      [sampleItem] ++ [{ sampleItemB with «from» := "" }] ∧
    sampleItemB.slug = sampleItem.slug ∧ sampleItemB ≠ sampleItem := by
  refine ⟨?_, ?_, by decide, by decide⟩
  · have h := (enqueue_semantics ⟨[], [], []⟩
      { dismissed := [], queued := [sampleItem] } sampleItem "").2.2.2.1
    exact (h (by decide) (by decide)).trans (by decide)
  · exact (enqueue_semantics ⟨[], [], []⟩
      { dismissed := [], queued := [sampleItem] } sampleItemB "").2.2.2.2 (by decide) (by decide)

/-- C2: on a status refresh, an item whose previous status existed, whose status
field changed, and which is not currently updating yields exactly the error-path
effects (error notice whose retry action re-enqueues with `_from_error`, then a
dequeue) on status `error`, and exactly the success-path effects (success
notice, dismiss, dequeue) on status `completed`; an item whose status is
unchanged or currently `inProgress` yields no effects, and the whole refresh is
the concatenation of the per-item effects over the candidate set. -/
theorem reconcile_effects (prevProps props : Props) (item : Item) :
    (prevStatus prevProps item ≠ none →
      prevStatus prevProps item ≠ item.updateStatus →
      item.updateStatus ≠ some "inProgress" →
      (item.updateStatus = some "error" →
        reconcileItem prevProps item =
          [Effect.showErrorNotice ("alitemupdate-" ++ item.slug) item "_from_error",
            Effect.dequeueCall]) ∧
      (item.updateStatus = some "completed" →
        reconcileItem prevProps item =
          [Effect.showSuccessNotice ("alitemupdate-" ++ item.slug),
            Effect.dismissCall item, Effect.dequeueCall])) ∧
    ((prevStatus prevProps item = item.updateStatus ∨
        item.updateStatus = some "inProgress") →
      reconcileItem prevProps item = []) ∧
    (prevStatus prevProps item = none → reconcileItem prevProps item = []) ∧
    componentDidUpdate prevProps props =
      ((allUpdatable props).map (reconcileItem prevProps)).flatten := by
  refine ⟨?_, ?_, ?_, ?_⟩
  · intro h1 h2 h3
    have hc2 : ¬ (prevStatus prevProps item = item.updateStatus ∨
        item.updateStatus = some "inProgress") := by
      rintro (h | h)
      · exact h2 h
      · exact h3 h
    constructor
    · intro h4
      rw [reconcileItem, if_neg h1, if_neg hc2, h4]
      rfl
    · intro h4
      rw [reconcileItem, if_neg h1, if_neg hc2, h4]
      rfl
  · intro h
    by_cases hn : prevStatus prevProps item = none
    · rw [reconcileItem, if_pos hn]
    · rw [reconcileItem, if_neg hn, if_pos h]
  · intro h
    rw [reconcileItem, if_pos h]
  · by_cases he : (allUpdatable props).isEmpty = true
    · have h0 : allUpdatable props = [] := by simpa using he
      simp [componentDidUpdate, h0]
    · have he2 : (allUpdatable props).isEmpty = false := by
        cases h : (allUpdatable props).isEmpty
        · rfl
        · exact absurd h he
      simp [componentDidUpdate, he2]

/-- C2 witness: a plugin observed `inProgress` previously and `error` now
produces exactly the error notice (with `_from_error` retry) and a dequeue, and
one observed `completed` produces the success notice, dismiss and dequeue. -/
theorem reconcile_effects_witness :
    reconcileItem ⟨[], [sampleInProgress], []⟩ sampleErrored =
      [Effect.showErrorNotice ("alitemupdate-" ++ sampleErrored.slug) sampleErrored
        "_from_error", Effect.dequeueCall] ∧
    reconcileItem ⟨[], [sampleInProgress], []⟩ sampleCompleted =
      [Effect.showSuccessNotice ("alitemupdate-" ++ sampleCompleted.slug),
        Effect.dismissCall sampleCompleted, Effect.dequeueCall] := by
  constructor
  · exact ((reconcile_effects ⟨[], [sampleInProgress], []⟩ ⟨[], [sampleErrored], []⟩
      sampleErrored).1 (by decide) (by decide) (by decide)).1 (by decide)
  · exact ((reconcile_effects ⟨[], [sampleInProgress], []⟩ ⟨[], [sampleCompleted], []⟩
      sampleCompleted).1 (by decide) (by decide) (by decide)).2 (by decide)

/-- C5: `dismiss` with an item carrying a string slug unions exactly that one
slug into `dismissed` and emits the single-item tracking event; without one it
unions the full candidate slug set (core, plugins, themes) and emits the
dismiss-all tracking event. -/
theorem dismiss_slugs (props : Props) (s : SState) (item : Item) :
    ((dismissSt props s (some item)).dismissed = unionL s.dismissed [item.slug] ∧
      (∀ x : String, x ∈ (dismissSt props s (some item)).dismissed ↔
        x ∈ s.dismissed ∨ x = item.slug) ∧
      dismissFx (some item) = [Effect.trackDismiss item]) ∧
    ((dismissSt props s none).dismissed =
        unionL s.dismissed
          (unionL3 (props.coreWithUpdate.map (fun p => p.slug))
            (props.pluginWithUpdate.map (fun p => p.slug))
            (props.themeWithUpdate.map (fun p => p.slug))) ∧
      (∀ x : String, x ∈ (dismissSt props s none).dismissed ↔
        x ∈ s.dismissed ∨ x ∈ props.coreWithUpdate.map (fun p => p.slug) ∨
          x ∈ props.pluginWithUpdate.map (fun p => p.slug) ∨
          x ∈ props.themeWithUpdate.map (fun p => p.slug)) ∧
      dismissFx none = [Effect.trackDismissAll]) := by
  refine ⟨⟨rfl, ?_, rfl⟩, rfl, ?_, rfl⟩
  · intro x
    show x ∈ unionL s.dismissed [item.slug] ↔ _
    rw [mem_unionL]
    simp
  · intro x
    show x ∈ unionL s.dismissed (unionL3 _ _ _) ↔ _
    rw [mem_unionL, mem_unionL3]

/-- C5 witness: dismissing a concrete plugin adds its slug; a dismiss-all with
one candidate of each kind adds all three candidate slugs. -/
theorem dismiss_slugs_witness :
    "hello-dolly" ∈ (dismissSt ⟨[], [], []⟩ { dismissed := ["a"], queued := [] }
      (some sampleItem)).dismissed ∧
    "dara" ∈ (dismissSt ⟨[], [sampleItem], [sampleTheme]⟩
      { dismissed := ["a"], queued := [] } none).dismissed := by
  constructor
  · exact ((dismiss_slugs ⟨[], [], []⟩ { dismissed := ["a"], queued := [] }
      sampleItem).1.2.1 "hello-dolly").mpr (Or.inr rfl)
  · exact ((dismiss_slugs ⟨[], [sampleItem], [sampleTheme]⟩
      { dismissed := ["a"], queued := [] } sampleItem).2.2.1 "dara").mpr
      (Or.inr (Or.inr (Or.inr (by decide))))

/-- C6: `dismiss` never touches `queued`; a dismissed candidate disappears from
the rendered list, and the dispatch decision of `continueQueue` is unaffected by any
change to `dismissed`, so a dismissed queued item neither renders nor blocks
queue advancement. -/
theorem dismiss_queue_frame (props : Props) (s : SState) (arg : Option Item)
    (item : Item) :
    (dismissSt props s arg).queued = s.queued ∧
    continueQueue props (dismissSt props s arg) = continueQueue props s ∧
    (item ∈ allUpdatable props →
      item ∉ renderedItems props (dismissSt props s (some item))) := by
  refine ⟨rfl, rfl, ?_⟩
  intro _ hmem
  have hpred := (List.mem_filter.mp hmem).2
  have hslug : item.slug ∈ (dismissSt props s (some item)).dismissed :=
    (mem_unionL item.slug s.dismissed [item.slug]).mpr (Or.inr (by simp))
  have hnc : item.slug ∉ (dismissSt props s (some item)).dismissed := by
    simpa using hpred
  exact hnc hslug

/-- C6 witness: after dismissing a queued concrete plugin the queue still holds
it, it is absent from the rendered list, and the dispatch decision is
unchanged. -/
theorem dismiss_queue_frame_witness :
    (dismissSt ⟨[], [sampleItem], []⟩ { dismissed := [], queued := [sampleItem] }
      (some sampleItem)).queued = [sampleItem] ∧
    sampleItem ∉ renderedItems ⟨[], [sampleItem], []⟩
      (dismissSt ⟨[], [sampleItem], []⟩ { dismissed := [], queued := [sampleItem] }
        (some sampleItem)) := by
  constructor
  · exact (dismiss_queue_frame ⟨[], [sampleItem], []⟩
      { dismissed := [], queued := [sampleItem] } (some sampleItem) sampleItem).1
  · exact (dismiss_queue_frame ⟨[], [sampleItem], []⟩
      { dismissed := [], queued := [sampleItem] } (some sampleItem) sampleItem).2.2
      (by decide)

/-- C7 counterexample: an http state of `success` with `isUpdateComplete` false
is normalized to `error`, not to `completed` as the claim states for every flag
value. -/
theorem getNormalizedStatus_success_cex :
    ¬ (getNormalizedStatus "success" false = some "completed") := by decide

/-- C7 (amended): `getNormalizedStatus` maps `pending` to `inProgress`, `failure`
to `error`, `success` to `completed` when `isUpdateComplete` is true and to
`error` when it is false, and any other state (such as `uninitialized`) to
`false`. -/
theorem getNormalizedStatus_table (state : String) (b : Bool) :
    getNormalizedStatus "pending" b = some "inProgress" ∧
    getNormalizedStatus "failure" b = some "error" ∧
    getNormalizedStatus "success" true = some "completed" ∧
    getNormalizedStatus "success" false = some "error" ∧
    (state ≠ "pending" → state ≠ "failure" → state ≠ "success" →
      getNormalizedStatus state b = none) := by
  refine ⟨by cases b <;> decide, by cases b <;> decide, by decide, by decide, ?_⟩
  intro h1 h2 h3
  have e1 : (state == "pending") = false := beq_eq_false_iff_ne.mpr h1
  have e2 : (state == "failure") = false := beq_eq_false_iff_ne.mpr h2
  have e3 : (state == "success") = false := beq_eq_false_iff_ne.mpr h3
  simp [getNormalizedStatus, e1, e2, e3]

/-- C7 witness: the `uninitialized` state normalizes to `false` for both flag
values. -/
theorem getNormalizedStatus_table_witness :
    getNormalizedStatus "uninitialized" false = none :=
  (getNormalizedStatus_table "uninitialized" false).2.2.2.2
    (by decide) (by decide) (by decide)

/-- C8: `getStatusForCore` hardwires `isUpdateComplete` to false, so it can never
return `completed`; a core update whose polled state is `success` surfaces as
`error`. -/
theorem getStatusForCore_never_completed (store : String → String) (siteId : Nat) :
    getStatusForCore store siteId ≠ some "completed" ∧
    (store ("core-update-" ++ toString siteId) = "success" →
      getStatusForCore store siteId = some "error") := by
  constructor
  · rw [getStatusForCore, getNormalizedStatus]
    split
    · simp
    · split
      · simp
      · split
        · simp
        · simp
  · intro h
    rw [getStatusForCore, h]
    decide

/-- C8 witness: with the store reporting `success` for every key, the core
status is `error`, not `completed`. -/
theorem getStatusForCore_never_completed_witness :
    getStatusForCore (fun _ => "success") 77 = some "error" :=
  (getStatusForCore_never_completed (fun _ => "success") 77).2 rfl

/-- C9: the `page.exit` handler calls `next()` exactly when the queue is empty or
the user confirms; with a non-empty queue and a declined prompt the navigation is
cancelled by restoring the activity route, and the component state is untouched
either way. -/
theorem exit_guard (siteSlug : String) (s : SState) (c : Bool) :
    ((exitHandler siteSlug s c).1 = NavOutcome.proceed ↔ s.queued = [] ∨ c = true) ∧
    (exitHandler siteSlug s c).2 = s ∧
    (s.queued ≠ [] → c = false →
      (exitHandler siteSlug s c).1 =
        NavOutcome.cancelRestore ("/stats/activity/" ++ siteSlug)) := by
  cases c with
  | true =>
    refine ⟨?_, ?_, ?_⟩
    · rw [exitHandler]
      simp
    · rw [exitHandler]
      split <;> rfl
    · intro _ hcf
      simp at hcf
  | false =>
    cases hq : s.queued with
    | nil =>
      refine ⟨?_, ?_, ?_⟩
      · rw [exitHandler, hq]
        simp
      · rw [exitHandler]
        split <;> rfl
      · intro hne _
        exact absurd rfl hne
    | cons x xs =>
      refine ⟨?_, ?_, ?_⟩
      · rw [exitHandler, hq]
        simp
      · rw [exitHandler]
        split <;> rfl
      · intro _ _
        rw [exitHandler, hq]
        simp

/-- C9 witness: a non-empty queue with a declined prompt restores the route; an
empty queue proceeds without consulting the prompt. -/
theorem exit_guard_witness :
    (exitHandler "mysite" { dismissed := [], queued := [sampleItem] } false).1 =
      NavOutcome.cancelRestore ("/stats/activity/" ++ "mysite") ∧
    (exitHandler "mysite" emptyState false).1 = NavOutcome.proceed := by
  constructor
  · exact (exit_guard "mysite" { dismissed := [], queued := [sampleItem] } false).2.2
      (by decide) rfl
  · exact (exit_guard "mysite" emptyState false).1.mpr (Or.inl rfl)

theorem dismissed_mem_applyEffect (props : Props) (s : SState) (e : Effect)
    (x : String) (hx : x ∈ s.dismissed) : x ∈ (applyEffect props s e).dismissed := by
  cases e <;> first
    | exact hx
    | exact (mem_unionL x _ _).mpr (Or.inl hx)

theorem dismissed_mem_foldl (props : Props) (effects : List Effect) :
    ∀ (s : SState) (x : String), x ∈ s.dismissed →
      x ∈ (effects.foldl (applyEffect props) s).dismissed := by
  induction effects with
  | nil => intro s x hx; exact hx
  | cons e es ih =>
    intro s x hx
    exact ih _ x (dismissed_mem_applyEffect props s e x hx)

/-- C10: `dismissed` only ever grows.  `enqueue`, `dequeue` and `updateAll` leave
it untouched (and `continueQueue`/`updateItem` perform no `setState` at all);
`dismiss` unions new slugs in, and a reconciliation pass — whose only
state-mutating effects are its `dismiss` and `dequeue` calls — preserves every
previously dismissed slug. -/
theorem dismissed_monotone (props prevProps : Props) (s : SState) (item : Item)
    (f : String) (arg : Option Item) (x : String) :
    (enqueueSt s item f).dismissed = s.dismissed ∧
    (dequeueSt s).dismissed = s.dismissed ∧
    (updateAllSt props s).dismissed = s.dismissed ∧
    (dismissSt props s arg).dismissed = unionL s.dismissed (dismissTargets props arg) ∧
    (x ∈ s.dismissed → x ∈ (dismissSt props s arg).dismissed) ∧
    (x ∈ s.dismissed → x ∈ (reconcileStep prevProps props s).dismissed) := by
  refine ⟨rfl, rfl, rfl, rfl, ?_, ?_⟩
  · intro hx
    exact (mem_unionL x _ _).mpr (Or.inl hx)
  · intro hx
    exact dismissed_mem_foldl props (componentDidUpdate prevProps props) s x hx

/-- C10 witness: a previously dismissed slug survives a concrete dismiss call and
a concrete reconciliation pass that itself dismisses and dequeues. -/
theorem dismissed_monotone_witness :
    "a" ∈ (dismissSt ⟨[], [sampleItem], []⟩ { dismissed := ["a"], queued := [] }
      (some sampleItem)).dismissed ∧
    "a" ∈ (reconcileStep ⟨[], [sampleInProgress], []⟩ ⟨[], [sampleCompleted], []⟩
      { dismissed := ["a"], queued := [sampleCompleted] }).dismissed := by
  constructor
  · exact (dismissed_monotone ⟨[], [sampleItem], []⟩ ⟨[], [], []⟩
      { dismissed := ["a"], queued := [] } sampleItem "" (some sampleItem) "a").2.2.2.2.1
      (by decide)
  · exact (dismissed_monotone ⟨[], [sampleCompleted], []⟩ ⟨[], [sampleInProgress], []⟩
      { dismissed := ["a"], queued := [sampleCompleted] } sampleItem "" none "a").2.2.2.2.2
      (by decide)
